import Mathlib

/-!
Verification development for the provider-profile extraction pipeline
(`provider-list.py`).  The Python source is shallowly embedded: pure string
and list manipulations become Lean functions over `String` / `List Char`,
the collaborators (HTTP fetch, LLM completion endpoint, the JSON parser of
the standard library, the HTML tree library) are passed in as function
parameters returning `Option`, and the per-URL orchestrator loop becomes a
fold over the input URL list.
-/

namespace ProviderList

/-! ## Python string primitives used by the source -/

/-- The whitespace characters removed by the Python method `str.strip()`
(ASCII model).  Note that the byte-order marker U+FEFF is *not* whitespace
in Python: stripping a string that consists of one U+FEFF character returns
it unchanged. -/
def isPySpace (c : Char) : Bool :=
  c = ' ' || c = '\t' || c = '\n' || c = '\r' || c = '\x0b' || c = '\x0c'

/-- Python `str.strip()` (no argument): drop leading and trailing whitespace. -/
def pyStrip (s : String) : String :=
  String.mk (((s.data.dropWhile isPySpace).reverse.dropWhile isPySpace).reverse)

/-- Python `str.lstrip` at the one-character string U+FEFF: drop every
leading U+FEFF character. -/
def lstripBOM (s : String) : String :=
  String.mk (s.data.dropWhile (fun c => c = '\uFEFF'))

/-- Does `needle` occur at the head of `hay`? (helper for substring search). -/
def headMatches : List Char → List Char → Bool
  | [], _ => true
  | _ :: _, [] => false
  | n :: ns, h :: hs => n = h && headMatches ns hs

/-- Occurrence of `needle` anywhere in `hay` (Python `needle in hay`). -/
def hasSub (needle : List Char) : List Char → Bool
  | [] => headMatches needle []
  | h :: hs => headMatches needle (h :: hs) || hasSub needle hs

/-- Python `needle in hay` on strings. -/
def containsSub (hay needle : String) : Bool :=
  hasSub needle.data hay.data

/-- Python `str.lower()` (ASCII model, via `Char.toLower`). -/
def lowerStr (s : String) : String :=
  String.mk (s.data.map Char.toLower)

/-! ## `load_urls` (source lines 48-59)

The source reads the URL file and evaluates a comprehension that strips each
line, drops falsy (blank) lines, and left-strips the byte-order marker.
The file is modelled as its list of lines. -/

/-- Embedding of `load_urls` (source lines 48-53) applied to the lines of the
input file: keep the lines whose stripped form is non-empty, and map each to
its stripped form with all leading byte-order markers removed. -/
def load_urls (lines : List String) : List String :=
  (lines.filter (fun line => !(pyStrip line).isEmpty)).map
    (fun line => lstripBOM (pyStrip line))

/-! ## Education-heading selection (source lines 106-115)

The heading elements of levels 2-6 are modelled, in document order, by the
list of their rendered texts (`heading.get_text()`). -/

/-- Embedding of the heading-selection loop (source lines 108-115).  Note
that in the source *both* branches of the `if`/`elif` end with `break`, so
the loop stops at the first heading whose lowered text contains
`"education"`, whether or not it also mentions experience/certification. -/
def selectEduHeading : List String → Option String
  | [] => none
  | h :: rest =>
    let t := lowerStr h
    if containsSub t "education" &&
        (containsSub t "experience" || containsSub t "certification") then
      some h
    else if containsSub t "education" then
      some h
    else
      selectEduHeading rest

/-- The heading-selection rule as the specification words it: a heading whose
text contains "education" together with "experience" or "certification" is
preferred over any heading that merely contains "education", even when the
plain heading comes first in document order. -/
def claimedEduHeading (headings : List String) : Option String :=
  match headings.find? (fun h =>
      containsSub (lowerStr h) "education" &&
        (containsSub (lowerStr h) "experience" ||
          containsSub (lowerStr h) "certification")) with
  | some h => some h
  | none => headings.find? (fun h => containsSub (lowerStr h) "education")

/-! ## Education-section content (source lines 117-150)

The trailing siblings of the education heading are modelled as a list of
nodes: an element node carries its tag name and its rendered text
(`get_text(separator=' ', strip=True)`), a bare text node carries its raw
string (the source applies `strip()` to it). -/

/-- A sibling node following the education heading. -/
inductive SibNode where
  | elem (tag : String) (txt : String)
  | textNode (raw : String)

/-- Embedding of the sibling walk (source lines 125-143): stop at the next
heading, collect the text of `p`/`div`/`li` elements and of bare text nodes,
skipping fragments of length at most 3. -/
def collectSibs : List SibNode → List String
  | [] => []
  | SibNode.elem tag txt :: rest =>
    if tag = "h1" || tag = "h2" || tag = "h3" || tag = "h4" || tag = "h5" ||
        tag = "h6" then
      []
    else if tag = "p" || tag = "div" || tag = "li" then
      if !txt.isEmpty && txt.length > 3 then txt :: collectSibs rest
      else collectSibs rest
    else
      collectSibs rest
  | SibNode.textNode raw :: rest =>
    let t := pyStrip raw
    if !t.isEmpty && t.length > 3 then t :: collectSibs rest
    else collectSibs rest

/-- The sibling candidate text: collected fragments joined by newlines
(source line 146). -/
def siblingContent (sibs : List SibNode) : String :=
  String.intercalate "\n" (collectSibs sibs)

/-- Embedding of the education-section choice (source lines 117-148):
starting from the text of the immediate parent container of the heading,
replace it by the sibling concatenation when the latter is strictly longer. -/
def eduSectionContent (parentText : String) (sibs : List SibNode) : String :=
  if (siblingContent sibs).length > parentText.length then siblingContent sibs
  else parentText

/-! ## Python dictionaries

The JSON object returned by `json.loads` and mutated by
`extract_provider_data` is modelled as an association list of string keys
and string values (the 15 requested fields are strings).  Lookup follows the
first occurrence of a key; assignment replaces the entries holding the key,
or appends a fresh entry when the key is absent — on the duplicate-free
lists produced by a JSON parser this coincides with Python dict semantics. -/

/-- An association-list model of a Python string-to-string dict. -/
abbrev Dict := List (String × String)

/-- Python `d.get(k)` / `d[k]` lookup, as an `Option`. -/
def dictGet (d : Dict) (k : String) : Option String :=
  (d.find? (fun p => p.1 == k)).map (fun p => p.2)

/-- Python `k in d`. -/
def dictHasKey (d : Dict) (k : String) : Bool :=
  d.any (fun p => p.1 == k)

/-- Python `d[k] = v`. -/
def dictSet (d : Dict) (k v : String) : Dict :=
  if d.any (fun p => p.1 == k) then
    d.map (fun p => if p.1 == k then (k, v) else p)
  else
    d ++ [(k, v)]

/-! ## CSV schema and row construction (source lines 304-326) -/

/-- The fixed 17-column CSV schema (source lines 306-311). -/
def fieldnames : List String :=
  ["Name", "Credentials", "Titles", "Specialty", "Locations",
   "Areas of Clinical Practice", "Diseases Treated", "Languages",
   "Undergraduate Degree", "Medical Degree", "Residency", "Fellowship",
   "Board Certifications", "Awards", "Other", "Profile URL", "Last Modified"]

/-- Embedding of the row built by `append_to_csv` (source line 325):
`row = \x7bfield: data.get(field, "") for field in fieldnames\x7d`, which the
`csv.DictWriter` then emits in `fieldnames` order. -/
def append_to_csv_row (data : Dict) : List (String × String) :=
  fieldnames.map (fun f => (f, (dictGet data f).getD ""))

/-- Embedding of the reconciliation step of `extract_provider_data` (source
lines 285-290): overlay the profile URL unconditionally; then, when the
heuristic date is truthy (non-empty) it overwrites the Last Modified value,
and otherwise the key is only filled with the empty string when absent. -/
def reconcileData (data : Dict) (url last_modified : String) : Dict :=
  let d1 := dictSet data "Profile URL" url
  if !last_modified.isEmpty then
    dictSet d1 "Last Modified" last_modified
  else if !dictHasKey d1 "Last Modified" then
    dictSet d1 "Last Modified" ""
  else
    d1

/-! ## JSON object span (source lines 279-282) -/

/-- Index of the first occurrence of `c` (Python `str.find` without the -1
encoding). -/
def firstIdxOf (c : Char) : List Char → Option Nat
  | [] => none
  | x :: xs => if x = c then some 0 else (firstIdxOf c xs).map (fun i => i + 1)

/-- Index of the last occurrence of `c` (Python `str.rfind` without the -1
encoding). -/
def lastIdxOf (c : Char) : List Char → Option Nat
  | [] => none
  | x :: xs =>
    match lastIdxOf c xs with
    | some i => some (i + 1)
    | none => if x = c then some 0 else none

/-- Embedding of the span location of `extract_provider_data` (source lines
279-282): `start_idx = llm_content.find(open-brace)`,
`end_idx = llm_content.rfind(close-brace) + 1`, and the slice
`llm_content[start_idx:end_idx]` is taken when
`start_idx >= 0 and end_idx > start_idx`. -/
def jsonSpanL (s : List Char) : Option (List Char) :=
  let start_idx : Int := match firstIdxOf '\x7b' s with
    | some i => (i : Int)
    | none => -1
  let end_idx : Int := (match lastIdxOf '\x7d' s with
    | some j => (j : Int)
    | none => -1) + 1
  if 0 ≤ start_idx ∧ start_idx < end_idx then
    some ((s.drop start_idx.toNat).take (end_idx - start_idx).toNat)
  else
    none

/-- String version of `jsonSpanL`. -/
def jsonSpan (s : String) : Option String :=
  (jsonSpanL s.data).map String.mk

/-! ## Date regular expressions (source lines 160-186)

The handful of fixed patterns of the source are embedded as specialised
matchers over `List Char`.  Each matcher tries to match a prefix of its
argument and returns the captured date token.  Greedy one-or-more repetition
of a character class followed by a required character outside the class is
implemented by maximal munch, which coincides with the backtracking
semantics of the `re` module for exactly that shape (backtracking one
character of the run would place a class character where the required
non-class character must sit). -/

/-- The class matched by a space inside the regex class `[,:\s]` (the `re`
whitespace class, ASCII model). -/
def isReSpace (c : Char) : Bool :=
  c = ' ' || c = '\t' || c = '\n' || c = '\r' || c = '\x0b' || c = '\x0c'

/-- The regex class `[,:\s]` of the labelled patterns. -/
def isPunctSp (c : Char) : Bool :=
  c = ',' || c = ':' || isReSpace c

/-- The regex class `\w` (ASCII model: letters, digits, underscore). -/
def isWordChar (c : Char) : Bool :=
  c.isAlphanum || c = '_'

/-- Require the character `c` at the head, returning the rest. -/
def expectChar (c : Char) : List Char → Option (List Char)
  | [] => none
  | x :: xs => if x = c then some xs else none

/-- The regex piece `\d\x7bn\x7d`: exactly `n` digits, returned with the rest. -/
def takeDigits : Nat → List Char → Option (List Char × List Char)
  | 0, s => some ([], s)
  | _ + 1, [] => none
  | n + 1, x :: xs =>
    if x.isDigit then (takeDigits n xs).map (fun p => (x :: p.1, p.2)) else none

/-- The regex piece `\d\x7b1,2\x7d` under maximal munch: one digit, and a second
when present. -/
def takeDigits12 : List Char → Option (List Char × List Char)
  | [] => none
  | x :: xs =>
    if x.isDigit then
      match xs with
      | y :: ys => if y.isDigit then some ([x, y], ys) else some ([x], xs)
      | [] => some ([x], [])
    else none

/-- Greedy `+` of a character class under maximal munch. -/
def takeClass1 (p : Char → Bool) (s : List Char) : Option (List Char × List Char) :=
  match s.takeWhile p with
  | [] => none
  | run => some (run, s.dropWhile p)

/-- The date shape `\d\x7b4\x7d-\d\x7b2\x7d-\d\x7b2\x7d` (ISO date). -/
def matchIsoDate (s : List Char) : Option (List Char) :=
  match takeDigits 4 s with
  | none => none
  | some (y, s) =>
    match expectChar '-' s with
    | none => none
    | some s =>
      match takeDigits 2 s with
      | none => none
      | some (m, s) =>
        match expectChar '-' s with
        | none => none
        | some s =>
          match takeDigits 2 s with
          | none => none
          | some (d, _) => some (y ++ '-' :: (m ++ '-' :: d))

/-- The date shape `\d\x7b1,2\x7d/\d\x7b1,2\x7d/\d\x7b4\x7d` (slash date). -/
def matchSlashDate (s : List Char) : Option (List Char) :=
  match takeDigits12 s with
  | none => none
  | some (m, s) =>
    match expectChar '/' s with
    | none => none
    | some s =>
      match takeDigits12 s with
      | none => none
      | some (d, s) =>
        match expectChar '/' s with
        | none => none
        | some s =>
          match takeDigits 4 s with
          | none => none
          | some (y, _) => some (m ++ '/' :: (d ++ '/' :: y))

/-- The date shape `CLS+ \d\x7b1,2\x7d, \d\x7b4\x7d` for a word class `CLS`
("Month D, YYYY"-like; the footer pattern uses `\w`, the labelled body
patterns use `[A-Za-z]`). -/
def matchMonthDate (cls : Char → Bool) (s : List Char) : Option (List Char) :=
  match takeClass1 cls s with
  | none => none
  | some (w, s) =>
    match expectChar ' ' s with
    | none => none
    | some s =>
      match takeDigits12 s with
      | none => none
      | some (d, s) =>
        match expectChar ',' s with
        | none => none
        | some s =>
          match expectChar ' ' s with
          | none => none
          | some s =>
            match takeDigits 4 s with
            | none => none
            | some (y, _) => some (w ++ ' ' :: (d ++ ',' :: ' ' :: y))

/-- The footer date alternation of source line 167:
ISO date, else slash date, else `\w+ \d\x7b1,2\x7d, \d\x7b4\x7d`, tried at one
position in that order. -/
def matchFooterDate (s : List Char) : Option (List Char) :=
  match matchIsoDate s with
  | some d => some d
  | none =>
    match matchSlashDate s with
    | some d => some d
    | none => matchMonthDate isWordChar s

/-- Leftmost search of `re.search`: try the matcher at every position from
the left, first success wins. -/
def searchPos (m : List Char → Option (List Char)) : List Char → Option (List Char)
  | [] => m []
  | c :: rest =>
    match m (c :: rest) with
    | some r => some r
    | none => searchPos m rest

/-- Match a literal label case-insensitively (`re.IGNORECASE`): the label is
given in lowercase and each subject character is lowered before comparison. -/
def stripLabel : List Char → List Char → Option (List Char)
  | [], s => some s
  | _ :: _, [] => none
  | l :: ls, c :: cs => if c.toLower = l then stripLabel ls cs else none

/-- A labelled body pattern `LABEL[,:\s]+(SHAPE)` at one position. -/
def matchLabeled (label : List Char) (shape : List Char → Option (List Char))
    (s : List Char) : Option (List Char) :=
  match stripLabel label s with
  | none => none
  | some s =>
    match takeClass1 isPunctSp s with
    | none => none
    | some (_, s) => shape s

/-- The ordered fallback pattern list of source lines 174-181: the four
labels each paired with the "Month D, YYYY" shape, then "last modified" with
the slash shape, then "last modified" with the ISO shape. -/
def bodyPatterns : List (List Char → Option (List Char)) :=
  [matchLabeled "last modified".data (matchMonthDate Char.isAlpha),
   matchLabeled "last updated".data (matchMonthDate Char.isAlpha),
   matchLabeled "modified".data (matchMonthDate Char.isAlpha),
   matchLabeled "updated".data (matchMonthDate Char.isAlpha),
   matchLabeled "last modified".data matchSlashDate,
   matchLabeled "last modified".data matchIsoDate]

/-- Try a list of patterns in order over the whole text, stopping at the
first pattern that matches anywhere (source lines 182-185). -/
def firstPatternMatch : List (List Char → Option (List Char)) → List Char →
    Option (List Char)
  | [], _ => none
  | p :: ps, s =>
    match searchPos p s with
    | some r => some r
    | none => firstPatternMatch ps s

/-- Embedding of the last-modified extraction (source lines 160-186).  The
footer-like element, when one exists, is modelled by its rendered text
(`footer.get_text()`); `fullText` models `soup.get_text()`.  Method 1
searches the footer for a date token; method 2 runs only when method 1
produced the empty string, and tries the six labelled body patterns in
order over the full page text. -/
def extractLastModified (footerText : Option String) (fullText : String) : String :=
  let last_modified : String :=
    match footerText with
    | some ft =>
      match searchPos matchFooterDate ft.data with
      | some d => String.mk d
      | none => ""
    | none => ""
  if last_modified.isEmpty then
    match firstPatternMatch bodyPatterns fullText.data with
    | some d => String.mk d
    | none => ""
  else
    last_modified

/-- A date token of any of the three shapes (ISO, slash, or "Month D, YYYY"),
as the specification words the fallback patterns. -/
def matchAnyDate (s : List Char) : Option (List Char) :=
  match matchIsoDate s with
  | some d => some d
  | none =>
    match matchSlashDate s with
    | some d => some d
    | none => matchMonthDate Char.isAlpha s

/-- The fallback pattern list as the specification words it: the four labels
in priority order, each followed by optional punctuation and a date token of
any of the three shapes (ISO, slash, or "Month D, YYYY"). -/
def claimedBodyPatterns : List (List Char → Option (List Char)) :=
  [matchLabeled "last modified".data matchAnyDate,
   matchLabeled "last updated".data matchAnyDate,
   matchLabeled "modified".data matchAnyDate,
   matchLabeled "updated".data matchAnyDate]

/-- The last-modified extraction as the specification words it: identical to
the source except that the fallback scan uses `claimedBodyPatterns`. -/
def claimedExtractLastModified (footerText : Option String) (fullText : String) :
    String :=
  let fromFooter : String :=
    match footerText with
    | some ft =>
      match searchPos matchFooterDate ft.data with
      | some d => String.mk d
      | none => ""
    | none => ""
  if fromFooter.isEmpty then
    match firstPatternMatch claimedBodyPatterns fullText.data with
    | some d => String.mk d
    | none => ""
  else
    fromFooter

/-! ## `extract_provider_data` (source lines 191-301)

The collaborators are parameters: `complete` models the chat-completion
round trip of lines 253-274 (prompt composition, HTTP POST, and the
`choices[0].message.content` projection) and returns `none` on any request
or shape failure; `jsonParse` models `json.loads` on the delimited
substring, returning `none` on `JSONDecodeError`; `pageLastMod` models the
heuristic date produced by `parse_provider_page` for the fetched page. -/

/-- Embedding of the response handling of `extract_provider_data` (source
lines 276-296): delimit the JSON object span, parse it, and reconcile the
URL and heuristic date into the parsed object; any failure yields `none`. -/
def parseLLMResponse (jsonParse : String → Option Dict) (llm_content : String)
    (url last_modified : String) : Option Dict :=
  match jsonSpan llm_content with
  | some json_str =>
    match jsonParse json_str with
    | some data => some (reconcileData data url last_modified)
    | none => none
  | none => none

/-- Embedding of `extract_provider_data` (source lines 191-301): run the
completion collaborator on the fetched content and reconcile its response;
a completion failure yields `none`. -/
def extract_provider_data (jsonParse : String → Option Dict)
    (complete : String → Option String) (pageLastMod : String → String)
    (content url : String) : Option Dict :=
  match complete content with
  | some llm_content => parseLLMResponse jsonParse llm_content url (pageLastMod content)
  | none => none

/-! ## Orchestrator loop (source lines 336-393) -/

/-- The per-run state owned by `main`: the data rows appended to the output
CSV so far, the success counter, and the failed-URL list. -/
structure LoopState where
  rows : List (List (String × String))
  successful : Nat
  failed_urls : List String
deriving Repr, DecidableEq

/-- Embedding of one iteration of the main loop (source lines 355-378):
a fetch failure or an extraction failure appends the URL to the failed list;
otherwise the reconciled record is appended to the CSV and the success
counter is incremented.  `fetch` models `fetch_page_content`, which returns
`None` on any request exception. -/
def processUrl (fetch : String → Option String) (jsonParse : String → Option Dict)
    (complete : String → Option String) (pageLastMod : String → String)
    (st : LoopState) (url : String) : LoopState :=
  match fetch url with
  | none => { st with failed_urls := st.failed_urls ++ [url] }
  | some content =>
    match extract_provider_data jsonParse complete pageLastMod content url with
    | none => { st with failed_urls := st.failed_urls ++ [url] }
    | some provider_data =>
      { st with rows := st.rows ++ [append_to_csv_row provider_data],
                successful := st.successful + 1 }

/-- Embedding of the main loop over the input URLs (source lines 349-378). -/
def mainLoop (fetch : String → Option String) (jsonParse : String → Option Dict)
    (complete : String → Option String) (pageLastMod : String → String)
    (urls : List String) : LoopState :=
  urls.foldl (processUrl fetch jsonParse complete pageLastMod)
    { rows := [], successful := 0, failed_urls := [] }

/-! ## Output file and the whole run (source lines 304-317 and 336-393) -/

/-- The output CSV as a value: its header row and its data rows. -/
structure CsvFile where
  header : List String
  rows : List (List (String × String))
deriving Repr, DecidableEq

/-- Embedding of `write_csv_header` (source lines 304-317): the file is
opened in mode `w`, so whatever was at the path before is discarded and the
file now holds exactly the header. -/
def write_csv_header (_prior : CsvFile) : CsvFile :=
  { header := fieldnames, rows := [] }

/-- Embedding of the final-summary computation (source line 387):
`successful/len(urls)*100` is a Python division that raises
`ZeroDivisionError` when the URL list is empty, so it is a fallible
operation. -/
def successRate (successful total : Nat) : Option ℚ :=
  if total = 0 then none else some ((successful : ℚ) / (total : ℚ) * 100)

/-- The observable outcome of one process run: exit with status 1 before the
output file is touched (`load_urls` failed; the prior file is carried
unchanged), an uncaught `ZeroDivisionError` in the final summary (the output
file as written so far survives), or a normal completion with the final
output file and failed-URL list. -/
inductive RunOutcome where
  | earlyExit (prior : CsvFile)
  | zeroDivCrash (file : CsvFile)
  | completed (file : CsvFile) (failed_urls : List String)
deriving Repr, DecidableEq

/-- Embedding of `main` (source lines 336-393).  `loaded` models the result
of `load_urls`: `none` when the input file is missing or unreadable (the
source calls `sys.exit(1)` before `write_csv_header` runs), `some urls`
otherwise.  After the loop, printing the summary divides by the URL count. -/
def runMain (prior : CsvFile) (loaded : Option (List String))
    (fetch : String → Option String) (jsonParse : String → Option Dict)
    (complete : String → Option String) (pageLastMod : String → String) :
    RunOutcome :=
  match loaded with
  | none => RunOutcome.earlyExit prior
  | some urls =>
    let file0 := write_csv_header prior
    let st := mainLoop fetch jsonParse complete pageLastMod urls
    let file : CsvFile := { file0 with rows := st.rows }
    match successRate st.successful urls.length with
    | none => RunOutcome.zeroDivCrash file
    | some _ => RunOutcome.completed file st.failed_urls

/-! ## Dictionary lemmas -/

theorem find?_eq_none_of_any_false {d : Dict} {k : String}
    (h : d.any (fun p => p.1 == k) = false) :
    d.find? (fun p => p.1 == k) = none := by
  induction d with
  | nil => rfl
  | cons p ps ih =>
    simp only [List.any_cons, Bool.or_eq_false_iff] at h
    rw [List.find?_cons_of_neg _ (by simp [h.1]), ih h.2]

theorem find?_map_replace {d : Dict} (k v : String)
    (h : d.any (fun p => p.1 == k) = true) :
    (d.map (fun p => if p.1 == k then (k, v) else p)).find? (fun p => p.1 == k) =
      some (k, v) := by
  induction d with
  | nil => simp at h
  | cons p ps ih =>
    rw [List.map_cons]
    by_cases hp : (p.1 == k) = true
    · rw [if_pos hp]
      exact List.find?_cons_of_pos _ (by simp)
    · have hp2 : (p.1 == k) = false := Bool.eq_false_iff.mpr hp
      simp only [List.any_cons, hp2, Bool.false_or] at h
      rw [if_neg hp, List.find?_cons_of_neg (p := fun (q : String × String) => q.1 == k) _ hp]
      exact ih h

theorem find?_map_replace_ne {d : Dict} {k k2 : String} (v : String) (hne : k2 ≠ k) :
    (d.map (fun p => if p.1 == k then (k, v) else p)).find? (fun p => p.1 == k2) =
      d.find? (fun p => p.1 == k2) := by
  have hne2 : k ≠ k2 := fun hkk => hne hkk.symm
  induction d with
  | nil => rfl
  | cons p ps ih =>
    rw [List.map_cons]
    by_cases hp : (p.1 == k) = true
    · have hpk : p.1 = k := beq_iff_eq.mp hp
      have hk2 : ((k, v).1 == k2) = false := beq_eq_false_iff_ne.mpr hne2
      have hpk2 : (p.1 == k2) = false := by
        rw [hpk]
        exact beq_eq_false_iff_ne.mpr hne2
      rw [if_pos hp, List.find?_cons_of_neg (p := fun (q : String × String) => q.1 == k2) _ (by simp [hk2]),
        List.find?_cons_of_neg (p := fun (q : String × String) => q.1 == k2) _ (by simp [hpk2])]
      exact ih
    · rw [if_neg hp]
      by_cases hp2 : (p.1 == k2) = true
      · rw [List.find?_cons_of_pos (p := fun (q : String × String) => q.1 == k2) _ hp2,
          List.find?_cons_of_pos (p := fun (q : String × String) => q.1 == k2) _ hp2]
      · rw [List.find?_cons_of_neg (p := fun (q : String × String) => q.1 == k2) _ hp2,
          List.find?_cons_of_neg (p := fun (q : String × String) => q.1 == k2) _ hp2]
        exact ih

theorem dictGet_dictSet_self (d : Dict) (k v : String) :
    dictGet (dictSet d k v) k = some v := by
  unfold dictGet dictSet
  by_cases h : d.any (fun p => p.1 == k)
  · rw [if_pos h, find?_map_replace k v h]
    rfl
  · rw [if_neg h, List.find?_append,
      find?_eq_none_of_any_false (Bool.eq_false_iff.mpr h)]
    simp [List.find?]

theorem dictGet_dictSet_ne (d : Dict) {k k2 : String} (v : String) (hne : k2 ≠ k) :
    dictGet (dictSet d k v) k2 = dictGet d k2 := by
  have hne2 : k ≠ k2 := fun hkk => hne hkk.symm
  unfold dictGet dictSet
  by_cases h : d.any (fun p => p.1 == k)
  · rw [if_pos h, find?_map_replace_ne v hne]
  · rw [if_neg h, List.find?_append]
    have hkv : ((k, v).1 == k2) = false := beq_eq_false_iff_ne.mpr hne2
    simp [List.find?, hkv]

theorem any_map_replace_ne {d : Dict} {k k2 : String} (v : String) (hne : k2 ≠ k) :
    (d.map (fun p => if p.1 == k then (k, v) else p)).any (fun p => p.1 == k2) =
      d.any (fun p => p.1 == k2) := by
  have hne2 : k ≠ k2 := fun hkk => hne hkk.symm
  induction d with
  | nil => rfl
  | cons p ps ih =>
    rw [List.map_cons]
    by_cases hp : (p.1 == k) = true
    · have hpk : p.1 = k := beq_iff_eq.mp hp
      have hk2 : ((k, v).1 == k2) = false := beq_eq_false_iff_ne.mpr hne2
      have hpk2 : (p.1 == k2) = false := by
        rw [hpk]
        exact beq_eq_false_iff_ne.mpr hne2
      rw [if_pos hp, List.any_cons, List.any_cons, hk2, hpk2, ih]
    · rw [if_neg hp, List.any_cons, List.any_cons, ih]

theorem dictHasKey_dictSet_ne (d : Dict) {k k2 : String} (v : String) (hne : k2 ≠ k) :
    dictHasKey (dictSet d k v) k2 = dictHasKey d k2 := by
  have hne2 : k ≠ k2 := fun hkk => hne hkk.symm
  unfold dictHasKey dictSet
  by_cases h : d.any (fun p => p.1 == k)
  · rw [if_pos h]
    exact any_map_replace_ne v hne
  · rw [if_neg h, List.any_append]
    have hkv : ((k, v).1 == k2) = false := beq_eq_false_iff_ne.mpr hne2
    simp [hkv]

theorem dictGet_eq_none_of_hasKey_false {d : Dict} {k : String}
    (h : dictHasKey d k = false) : dictGet d k = none := by
  unfold dictGet
  rw [find?_eq_none_of_any_false h]
  rfl

theorem dictGet_isSome_of_hasKey {d : Dict} {k : String}
    (h : dictHasKey d k = true) : ∃ v, dictGet d k = some v := by
  unfold dictHasKey at h
  unfold dictGet
  induction d with
  | nil => simp at h
  | cons p ps ih =>
    by_cases hp : (p.1 == k) = true
    · exact ⟨p.2, by rw [List.find?_cons_of_pos (p := fun (q : String × String) => q.1 == k) _ hp]; rfl⟩
    · have hp2 : (p.1 == k) = false := Bool.eq_false_iff.mpr hp
      simp only [List.any_cons, hp2, Bool.false_or] at h
      rw [List.find?_cons_of_neg (p := fun (q : String × String) => q.1 == k) _ hp]
      exact ih h

/-! ## Reconciliation lemmas -/

theorem reconcile_profileURL (data : Dict) (url lm : String) :
    dictGet (reconcileData data url lm) "Profile URL" = some url := by
  unfold reconcileData
  by_cases h1 : lm.isEmpty
  · simp only [h1, Bool.not_true, Bool.false_eq_true, if_false]
    by_cases h2 : dictHasKey (dictSet data "Profile URL" url) "Last Modified"
    · simp only [h2, Bool.not_true, Bool.false_eq_true, if_false]
      exact dictGet_dictSet_self data "Profile URL" url
    · simp only [Bool.eq_false_iff.mpr h2, Bool.not_false, if_true]
      rw [dictGet_dictSet_ne _ _ (by decide)]
      exact dictGet_dictSet_self data "Profile URL" url
  · simp only [Bool.eq_false_iff.mpr h1, Bool.not_false, if_true]
    rw [dictGet_dictSet_ne _ _ (by decide)]
    exact dictGet_dictSet_self data "Profile URL" url

theorem reconcile_lastModified (data : Dict) (url lm : String) :
    dictGet (reconcileData data url lm) "Last Modified" =
      some (if lm.isEmpty then (dictGet data "Last Modified").getD "" else lm) := by
  unfold reconcileData
  by_cases h1 : lm.isEmpty
  · simp only [h1, Bool.not_true, Bool.false_eq_true, if_false, if_true]
    by_cases h2 : dictHasKey (dictSet data "Profile URL" url) "Last Modified"
    · simp only [h2, Bool.not_true, Bool.false_eq_true, if_false]
      rw [dictGet_dictSet_ne _ _ (by decide)]
      rw [dictHasKey_dictSet_ne _ _ (by decide)] at h2
      obtain ⟨v, hv⟩ := dictGet_isSome_of_hasKey h2
      rw [hv]
      rfl
    · simp only [Bool.eq_false_iff.mpr h2, Bool.not_false, if_true]
      rw [dictGet_dictSet_self]
      rw [dictHasKey_dictSet_ne _ _ (by decide)] at h2
      rw [dictGet_eq_none_of_hasKey_false (Bool.eq_false_iff.mpr h2)]
      rfl
  · simp only [Bool.eq_false_iff.mpr h1, Bool.not_false, if_true, if_false]
    rw [dictGet_dictSet_self]
    simp

theorem reconcile_other (data : Dict) (url lm : String) {f : String}
    (h1 : f ≠ "Profile URL") (h2 : f ≠ "Last Modified") :
    dictGet (reconcileData data url lm) f = dictGet data f := by
  unfold reconcileData
  by_cases hl : lm.isEmpty
  · simp only [hl, Bool.not_true, Bool.false_eq_true, if_false]
    by_cases hk : dictHasKey (dictSet data "Profile URL" url) "Last Modified"
    · simp only [hk, Bool.not_true, Bool.false_eq_true, if_false]
      exact dictGet_dictSet_ne _ _ h1
    · simp only [Bool.eq_false_iff.mpr hk, Bool.not_false, if_true]
      rw [dictGet_dictSet_ne _ _ h2]
      exact dictGet_dictSet_ne _ _ h1
  · simp only [Bool.eq_false_iff.mpr hl, Bool.not_false, if_true]
    rw [dictGet_dictSet_ne _ _ h2]
    exact dictGet_dictSet_ne _ _ h1

/-! ## Row lemmas -/

theorem reconcile_getD (data : Dict) (url lm f : String) :
    (dictGet (reconcileData data url lm) f).getD "" =
      (if f = "Profile URL" then url
       else if f = "Last Modified" then
         (if lm.isEmpty then (dictGet data "Last Modified").getD "" else lm)
       else (dictGet data f).getD "") := by
  by_cases hPU : f = "Profile URL"
  · subst hPU
    rw [reconcile_profileURL]
    simp
  · by_cases hLM : f = "Last Modified"
    · subst hLM
      rw [reconcile_lastModified]
      simp [hPU]
    · rw [reconcile_other data url lm hPU hLM]
      simp [hPU, hLM]

theorem row_profileURL (data : Dict) :
    dictGet (append_to_csv_row data) "Profile URL" =
      some ((dictGet data "Profile URL").getD "") := rfl

theorem extract_profileURL {jsonParse : String → Option Dict}
    {complete : String → Option String} {pageLastMod : String → String}
    {content url : String} {data : Dict}
    (h : extract_provider_data jsonParse complete pageLastMod content url = some data) :
    dictGet data "Profile URL" = some url := by
  unfold extract_provider_data at h
  cases hc : complete content with
  | none => rw [hc] at h; simp at h
  | some lc =>
    rw [hc] at h
    dsimp only [] at h
    unfold parseLLMResponse at h
    cases hs : jsonSpan lc with
    | none => rw [hs] at h; simp at h
    | some js =>
      rw [hs] at h
      dsimp only [] at h
      cases hj : jsonParse js with
      | none => rw [hj] at h; simp at h
      | some d0 =>
        rw [hj] at h
        simp only [Option.some.injEq] at h
        subst h
        exact reconcile_profileURL d0 url (pageLastMod content)

/-! ## Loop lemmas -/

theorem processUrl_step (fetch : String → Option String)
    (jsonParse : String → Option Dict) (complete : String → Option String)
    (pageLastMod : String → String) (st : LoopState) (url : String) :
    (∃ row, processUrl fetch jsonParse complete pageLastMod st url =
        { st with rows := st.rows ++ [row], successful := st.successful + 1 } ∧
      dictGet row "Profile URL" = some url) ∨
    processUrl fetch jsonParse complete pageLastMod st url =
      { st with failed_urls := st.failed_urls ++ [url] } := by
  unfold processUrl
  cases hf : fetch url with
  | none => exact Or.inr rfl
  | some content =>
    dsimp only []
    cases he : extract_provider_data jsonParse complete pageLastMod content url with
    | none => exact Or.inr rfl
    | some data =>
      dsimp only []
      refine Or.inl ⟨append_to_csv_row data, rfl, ?_⟩
      rw [row_profileURL data, extract_profileURL he]
      rfl

theorem loop_counts (fetch : String → Option String)
    (jsonParse : String → Option Dict) (complete : String → Option String)
    (pageLastMod : String → String) :
    ∀ (urls : List String) (st : LoopState),
      (urls.foldl (processUrl fetch jsonParse complete pageLastMod) st).rows.length +
        (urls.foldl (processUrl fetch jsonParse complete pageLastMod) st).failed_urls.length =
      st.rows.length + st.failed_urls.length + urls.length := by
  intro urls
  induction urls with
  | nil => intro st; simp
  | cons u us ih =>
    intro st
    rw [List.foldl_cons, ih]
    rcases processUrl_step fetch jsonParse complete pageLastMod st u with
      ⟨row, heq, -⟩ | heq
    · rw [heq]
      simp only [List.length_append, List.length_cons, List.length_nil]
      omega
    · rw [heq]
      simp only [List.length_append, List.length_cons, List.length_nil]
      omega

/-! ## Claim theorems -/

/-- C1: in every iteration of the main loop, the URL ends in exactly one of
two outcomes — either exactly one row whose Profile URL field equals that
URL is appended to the output (and the failed list is unchanged), or the URL
is appended to the failed list (and the output is unchanged) — and over the
whole run the number of output rows plus the number of failed URLs equals
the number of input URLs. -/
theorem spec_loop_partition (fetch : String → Option String)
    (jsonParse : String → Option Dict) (complete : String → Option String)
    (pageLastMod : String → String) (urls : List String) :
    (∀ (st : LoopState) (url : String),
      (∃ row, processUrl fetch jsonParse complete pageLastMod st url =
          { st with rows := st.rows ++ [row], successful := st.successful + 1 } ∧
        dictGet row "Profile URL" = some url) ∨
      processUrl fetch jsonParse complete pageLastMod st url =
        { st with failed_urls := st.failed_urls ++ [url] }) ∧
    (mainLoop fetch jsonParse complete pageLastMod urls).rows.length +
      (mainLoop fetch jsonParse complete pageLastMod urls).failed_urls.length =
      urls.length := by
  constructor
  · intro st url
    exact processUrl_step fetch jsonParse complete pageLastMod st url
  · unfold mainLoop
    rw [loop_counts]
    simp

/-- C2: every row written to the output has exactly the 17 declared fields
in the fixed declared order, regardless of key order, extra keys, or missing
keys in the parsed JSON: each content field is the parsed value or the empty
string when absent, extra keys are dropped (the row is built from
`fieldnames` alone), and the Profile URL field always equals the input URL. -/
theorem spec_row_schema (data : Dict) (url lm : String) :
    append_to_csv_row (reconcileData data url lm) =
      fieldnames.map (fun f =>
        (f, if f = "Profile URL" then url
            else if f = "Last Modified" then
              (if lm.isEmpty then (dictGet data "Last Modified").getD "" else lm)
            else (dictGet data f).getD "")) ∧
    (append_to_csv_row (reconcileData data url lm)).map Prod.fst = fieldnames ∧
    (append_to_csv_row (reconcileData data url lm)).length = 17 := by
  refine ⟨?_, ?_, ?_⟩
  · unfold append_to_csv_row
    exact List.map_congr_left (fun f _ => by rw [reconcile_getD])
  · rfl
  · rfl

/-- C4: after reconciliation, the Last Modified field equals the heuristic
date whenever that date is non-empty, regardless of the parsed model value;
when the heuristic date is empty, the parsed model value is kept when
present, and otherwise the field is the empty string. -/
theorem spec_last_modified_reconcile (data : Dict) (url lm : String) :
    dictGet (reconcileData data url lm) "Last Modified" =
      some (if lm.isEmpty then (dictGet data "Last Modified").getD "" else lm) :=
  reconcile_lastModified data url lm

/-- C5 counterexample: on a document whose plain "Education" heading comes
before the combined "Education, Experience and Certifications" heading, the
source selects the plain heading, while the preference rule stated by the
specification selects the combined one. -/
theorem spec_edu_heading_cex :
    selectEduHeading ["Education", "Education, Experience and Certifications"] =
      some "Education" ∧
    claimedEduHeading ["Education", "Education, Experience and Certifications"] =
      some "Education, Experience and Certifications" :=
  ⟨rfl, rfl⟩

/-- C5 (amended): the extractor scans the headings of levels 2-6 in document
order and selects the first one whose lowered text contains "education"; the
combined experience/certification test never changes the outcome, because
both branches of the scan stop at the first education heading. -/
theorem spec_edu_heading_first_match (headings : List String) :
    selectEduHeading headings =
      headings.find? (fun h => containsSub (lowerStr h) "education") := by
  induction headings with
  | nil => rfl
  | cons h rest ih =>
    by_cases h1 : containsSub (lowerStr h) "education" = true
    · by_cases h2 : (containsSub (lowerStr h) "experience" ||
          containsSub (lowerStr h) "certification") = true
      · unfold selectEduHeading
        rw [List.find?_cons_of_pos
          (p := fun x : String => containsSub (lowerStr x) "education") _ h1]
        simp [h1, h2]
      · unfold selectEduHeading
        rw [List.find?_cons_of_pos
          (p := fun x : String => containsSub (lowerStr x) "education") _ h1]
        simp [h1, Bool.eq_false_iff.mpr h2]
    · have h1f : containsSub (lowerStr h) "education" = false :=
        Bool.eq_false_iff.mpr h1
      unfold selectEduHeading
      rw [List.find?_cons_of_neg
        (p := fun x : String => containsSub (lowerStr x) "education") _ h1]
      simp [h1f, ih]

/-- C6: the education-section content is whichever of the two candidates —
the parent-container text and the concatenated trailing-sibling text — has
the greater character count (the parent text is kept on ties); in
particular, sibling fragments totaling more characters than the parent text
are chosen; the sibling walk stops at the next heading and skips fragments
shorter than 4 characters. -/
theorem spec_edu_section_longer_wins (parentText : String) (sibs : List SibNode) :
    (eduSectionContent parentText sibs = parentText ∨
      eduSectionContent parentText sibs = siblingContent sibs) ∧
    (eduSectionContent parentText sibs).length =
      max parentText.length (siblingContent sibs).length ∧
    ((siblingContent sibs).length > parentText.length →
      eduSectionContent parentText sibs = siblingContent sibs) ∧
    (parentText.length ≥ (siblingContent sibs).length →
      eduSectionContent parentText sibs = parentText) ∧
    (∀ txt rest, collectSibs (SibNode.elem "h2" txt :: rest) = []) ∧
    (∀ tag txt rest, (tag = "p" ∨ tag = "div" ∨ tag = "li") → txt.length ≤ 3 →
      collectSibs (SibNode.elem tag txt :: rest) = collectSibs rest) := by
  refine ⟨?_, ?_, ?_, ?_, ?_, ?_⟩
  · unfold eduSectionContent
    by_cases h : (siblingContent sibs).length > parentText.length
    · rw [if_pos h]
      exact Or.inr rfl
    · rw [if_neg h]
      exact Or.inl rfl
  · unfold eduSectionContent
    by_cases h : (siblingContent sibs).length > parentText.length
    · rw [if_pos h]
      omega
    · rw [if_neg h]
      omega
  · intro h
    unfold eduSectionContent
    rw [if_pos h]
  · intro h
    unfold eduSectionContent
    rw [if_neg (by omega)]
  · intro txt rest
    rfl
  · intro tag txt rest htag hlen
    have hshort : (!txt.isEmpty && decide (txt.length > 3)) = false := by
      have : decide (txt.length > 3) = false := decide_eq_false (by omega)
      simp [this]
    rcases htag with h | h | h <;> subst h <;>
      simp [collectSibs, hshort]

/-! ## Index lemmas for the JSON span -/

theorem firstIdxOf_get {c : Char} {s : List Char} {i : Nat}
    (h : firstIdxOf c s = some i) : s.get? i = some c := by
  induction s generalizing i with
  | nil => simp [firstIdxOf] at h
  | cons x xs ih =>
    unfold firstIdxOf at h
    by_cases hx : x = c
    · rw [if_pos hx] at h
      obtain rfl : (0 : Nat) = i := Option.some.inj h
      simp [hx]
    · rw [if_neg hx] at h
      cases hf : firstIdxOf c xs with
      | none => rw [hf] at h; simp at h
      | some j =>
        rw [hf] at h
        obtain rfl : j + 1 = i := Option.some.inj h
        rw [List.get?_cons_succ]
        exact ih hf

theorem firstIdxOf_le {c : Char} {s : List Char} {j : Nat}
    (h : s.get? j = some c) : ∃ i, firstIdxOf c s = some i ∧ i ≤ j := by
  induction s generalizing j with
  | nil => simp at h
  | cons x xs ih =>
    by_cases hx : x = c
    · exact ⟨0, by simp [firstIdxOf, hx], Nat.zero_le j⟩
    · cases j with
      | zero =>
        rw [List.get?_cons_zero] at h
        exact absurd (Option.some.inj h) hx
      | succ j0 =>
        rw [List.get?_cons_succ] at h
        obtain ⟨i0, hi0, hle⟩ := ih h
        exact ⟨i0 + 1, by simp [firstIdxOf, hx, hi0], Nat.succ_le_succ hle⟩

theorem lastIdxOf_get {c : Char} {s : List Char} {i : Nat}
    (h : lastIdxOf c s = some i) : s.get? i = some c := by
  induction s generalizing i with
  | nil => simp [lastIdxOf] at h
  | cons x xs ih =>
    unfold lastIdxOf at h
    cases hl : lastIdxOf c xs with
    | some j =>
      rw [hl] at h
      obtain rfl : j + 1 = i := Option.some.inj h
      rw [List.get?_cons_succ]
      exact ih hl
    | none =>
      rw [hl] at h
      by_cases hx : x = c
      · rw [if_pos hx] at h
        obtain rfl : (0 : Nat) = i := Option.some.inj h
        simp [hx]
      · rw [if_neg hx] at h
        simp at h

theorem lastIdxOf_ge {c : Char} {s : List Char} {j : Nat}
    (h : s.get? j = some c) : ∃ i, lastIdxOf c s = some i ∧ j ≤ i := by
  induction s generalizing j with
  | nil => simp at h
  | cons x xs ih =>
    cases j with
    | zero =>
      rw [List.get?_cons_zero] at h
      have hx : x = c := Option.some.inj h
      cases hl : lastIdxOf c xs with
      | some k => exact ⟨k + 1, by simp [lastIdxOf, hl], Nat.zero_le _⟩
      | none => exact ⟨0, by simp [lastIdxOf, hl, hx], Nat.le_refl 0⟩
    | succ j0 =>
      rw [List.get?_cons_succ] at h
      obtain ⟨i0, hi0, hge⟩ := ih h
      exact ⟨i0 + 1, by simp [lastIdxOf, hi0], Nat.succ_le_succ hge⟩

theorem jsonSpanL_none_iff (s : List Char) :
    jsonSpanL s = none ↔
      ¬ ∃ i j, i ≤ j ∧ s.get? i = some '\x7b' ∧ s.get? j = some '\x7d' := by
  unfold jsonSpanL
  cases hf : firstIdxOf '\x7b' s with
  | none =>
    dsimp only
    rw [if_neg (fun hcon => absurd hcon.1 (by norm_num))]
    refine iff_of_true rfl ?_
    rintro ⟨i, j, -, hi, -⟩
    obtain ⟨i0, hi0, -⟩ := firstIdxOf_le hi
    rw [hf] at hi0
    exact Option.noConfusion hi0
  | some i =>
    cases hl : lastIdxOf '\x7d' s with
    | none =>
      dsimp only
      rw [if_neg (fun hcon => absurd hcon.2 (by omega))]
      refine iff_of_true rfl ?_
      rintro ⟨i1, j1, -, -, hj⟩
      obtain ⟨j0, hj0, -⟩ := lastIdxOf_ge hj
      rw [hl] at hj0
      exact Option.noConfusion hj0
    | some j =>
      dsimp only
      by_cases hij : i ≤ j
      · rw [if_pos ⟨by omega, by omega⟩]
        refine iff_of_false (by simp) ?_
        intro hno
        exact hno ⟨i, j, hij, firstIdxOf_get hf, lastIdxOf_get hl⟩
      · rw [if_neg (by omega)]
        refine iff_of_true rfl ?_
        rintro ⟨i1, j1, hij1, hi1, hj1⟩
        obtain ⟨i0, hi0, hle⟩ := firstIdxOf_le hi1
        obtain ⟨j0, hj0, hge⟩ := lastIdxOf_ge hj1
        rw [hf] at hi0
        rw [hl] at hj0
        have hii : i = i0 := Option.some.inj hi0
        have hjj : j = j0 := Option.some.inj hj0
        exact hij (by omega)

theorem jsonSpanL_some (s : List Char) {i j : Nat}
    (hf : firstIdxOf '\x7b' s = some i) (hl : lastIdxOf '\x7d' s = some j)
    (hij : i ≤ j) :
    jsonSpanL s = some ((s.drop i).take (j + 1 - i)) := by
  unfold jsonSpanL
  rw [hf, hl]
  dsimp only
  rw [if_pos ⟨by omega, by omega⟩]
  have h1 : ((i : Int)).toNat = i := by omega
  have h2 : (((j : Int) + 1) - (i : Int)).toNat = j + 1 - i := by omega
  rw [h1, h2]

/-- C7: the reconciler takes the substring of the completion text from the
first opening brace to the last closing brace; such a span exists exactly
when some opening brace is followed (weakly) by some closing brace, and when
the span is missing, or the span fails to parse as JSON, the reconciler
fails and the loop appends the URL to the failed list without writing any
row. -/
theorem spec_reconciler_failure (jsonParse : String → Option Dict)
    (fetch : String → Option String) (complete : String → Option String)
    (pageLastMod : String → String) (llm_content url lm : String) :
    (jsonSpan llm_content = none ↔
      ¬ ∃ i j, i ≤ j ∧ llm_content.data.get? i = some '\x7b' ∧
        llm_content.data.get? j = some '\x7d') ∧
    (∀ i j, firstIdxOf '\x7b' llm_content.data = some i →
      lastIdxOf '\x7d' llm_content.data = some j → i ≤ j →
      jsonSpan llm_content =
        some (String.mk ((llm_content.data.drop i).take (j + 1 - i)))) ∧
    (jsonSpan llm_content = none →
      parseLLMResponse jsonParse llm_content url lm = none) ∧
    (∀ js, jsonSpan llm_content = some js → jsonParse js = none →
      parseLLMResponse jsonParse llm_content url lm = none) ∧
    (∀ (st : LoopState) (u content : String), fetch u = some content →
      extract_provider_data jsonParse complete pageLastMod content u = none →
      processUrl fetch jsonParse complete pageLastMod st u =
        { st with failed_urls := st.failed_urls ++ [u] }) := by
  refine ⟨?_, ?_, ?_, ?_, ?_⟩
  · unfold jsonSpan
    rw [Option.map_eq_none']
    exact jsonSpanL_none_iff llm_content.data
  · intro i j hf hl hij
    unfold jsonSpan
    rw [jsonSpanL_some llm_content.data hf hl hij]
    rfl
  · intro h
    unfold parseLLMResponse
    rw [h]
  · intro js hs hp
    unfold parseLLMResponse
    rw [hs]
    dsimp only
    rw [hp]
  · intro st u content hfu he
    unfold processUrl
    rw [hfu]
    dsimp only
    rw [he]

/-! ## Non-emptiness of date matches -/

theorem matchIsoDate_ne_nil {s d : List Char} (h : matchIsoDate s = some d) :
    d ≠ [] := by
  unfold matchIsoDate at h
  repeat' split at h
  any_goals exact Option.noConfusion h
  all_goals
    obtain rfl := Option.some.inj h
    simp

theorem matchSlashDate_ne_nil {s d : List Char} (h : matchSlashDate s = some d) :
    d ≠ [] := by
  unfold matchSlashDate at h
  repeat' split at h
  any_goals exact Option.noConfusion h
  all_goals
    obtain rfl := Option.some.inj h
    simp

theorem matchMonthDate_ne_nil {cls : Char → Bool} {s d : List Char}
    (h : matchMonthDate cls s = some d) : d ≠ [] := by
  unfold matchMonthDate at h
  repeat' split at h
  any_goals exact Option.noConfusion h
  all_goals
    obtain rfl := Option.some.inj h
    simp

theorem matchFooterDate_ne_nil {s d : List Char} (h : matchFooterDate s = some d) :
    d ≠ [] := by
  unfold matchFooterDate at h
  cases hi : matchIsoDate s with
  | some r =>
    rw [hi] at h
    dsimp only at h
    exact matchIsoDate_ne_nil (hi.trans h)
  | none =>
    rw [hi] at h
    dsimp only at h
    cases hsl : matchSlashDate s with
    | some r =>
      rw [hsl] at h
      dsimp only at h
      exact matchSlashDate_ne_nil (hsl.trans h)
    | none =>
      rw [hsl] at h
      dsimp only at h
      exact matchMonthDate_ne_nil h

theorem searchPos_some {m : List Char → Option (List Char)} {s d : List Char}
    (h : searchPos m s = some d) : ∃ t, m t = some d := by
  induction s with
  | nil => exact ⟨[], h⟩
  | cons c rest ih =>
    unfold searchPos at h
    cases hm : m (c :: rest) with
    | some r =>
      rw [hm] at h
      dsimp only at h
      exact ⟨c :: rest, hm.trans h⟩
    | none =>
      rw [hm] at h
      dsimp only at h
      exact ih h

/-! ## Last-modified claim theorems -/

/-- C3 counterexample: the specification says each fallback label accepts a
date token of any of the three shapes, but the source pairs the slash and
ISO shapes only with the label "last modified"; on a page whose full text
reads "Updated: 3/4/2024" (and with no footer) the source extracts nothing,
while the specified pattern list extracts "3/4/2024". -/
theorem spec_last_modified_patterns_cex :
    extractLastModified none "Updated: 3/4/2024" = "" ∧
    claimedExtractLastModified none "Updated: 3/4/2024" = "3/4/2024" :=
  ⟨rfl, rfl⟩

/-- C3 (amended): any footer date match wins outright over the body scan;
only when the footer yields nothing is the full text scanned with the
ordered fallback list — the labels "last modified", "last updated",
"modified", "updated" each paired with the "Month D, YYYY" token shape, then
"last modified" with the slash shape, then "last modified" with the ISO
shape — stopping at the first match, and no match yields the empty string;
in particular the specification examples hold. -/
theorem spec_last_modified_amended (ft full : String) :
    (∀ d, searchPos matchFooterDate ft.data = some d →
      extractLastModified (some ft) full = String.mk d) ∧
    (searchPos matchFooterDate ft.data = none →
      extractLastModified (some ft) full = extractLastModified none full) ∧
    (extractLastModified none full =
      match firstPatternMatch bodyPatterns full.data with
      | some d => String.mk d
      | none => "") ∧
    (firstPatternMatch bodyPatterns full.data = none →
      extractLastModified none full = "") ∧
    extractLastModified none "Some page text. Last Modified, July 25, 2024. End." =
      "July 25, 2024" ∧
    extractLastModified (some "Footer 2024-01-02") "Last Modified, July 25, 2024" =
      "2024-01-02" := by
  refine ⟨?_, ?_, ?_, ?_, rfl, rfl⟩
  · intro d hsp
    have hne : d ≠ [] := by
      obtain ⟨t, ht⟩ := searchPos_some hsp
      exact matchFooterDate_ne_nil ht
    have hemp : (String.mk d).isEmpty = false := by
      rw [Bool.eq_false_iff]
      intro ht
      exact hne (congrArg String.data ((String.isEmpty_iff (String.mk d)).mp ht))
    unfold extractLastModified
    dsimp only
    rw [hsp]
    dsimp only
    rw [if_neg (by simp [hemp])]
  · intro hsp
    unfold extractLastModified
    dsimp only
    rw [hsp]
  · rfl
  · intro hnone
    unfold extractLastModified
    dsimp only
    rw [hnone]
    simp

/-! ## Run-level lemmas and claims -/

theorem mainLoop_all_fail (fetch : String → Option String)
    (jsonParse : String → Option Dict) (complete : String → Option String)
    (pageLastMod : String → String) :
    ∀ (urls : List String) (st : LoopState), (∀ u ∈ urls, fetch u = none) →
      urls.foldl (processUrl fetch jsonParse complete pageLastMod) st =
        { st with failed_urls := st.failed_urls ++ urls } := by
  intro urls
  induction urls with
  | nil => intro st _; simp
  | cons u us ih =>
    intro st hf
    rw [List.foldl_cons]
    have hstep : processUrl fetch jsonParse complete pageLastMod st u =
        { st with failed_urls := st.failed_urls ++ [u] } := by
      unfold processUrl
      rw [hf u (List.mem_cons_self u us)]
    rw [hstep, ih _ (fun v hv => hf v (List.mem_cons_of_mem u hv))]
    simp

theorem runMain_some_eq (prior : CsvFile) (fetch : String → Option String)
    (jsonParse : String → Option Dict) (complete : String → Option String)
    (pageLastMod : String → String) (urls : List String) :
    runMain prior (some urls) fetch jsonParse complete pageLastMod =
      (if urls.length = 0 then
        RunOutcome.zeroDivCrash
          (CsvFile.mk fieldnames (mainLoop fetch jsonParse complete pageLastMod urls).rows)
      else
        RunOutcome.completed
          (CsvFile.mk fieldnames (mainLoop fetch jsonParse complete pageLastMod urls).rows)
          (mainLoop fetch jsonParse complete pageLastMod urls).failed_urls) := by
  unfold runMain successRate write_csv_header
  dsimp only
  by_cases h : urls.length = 0
  · rw [if_pos h, if_pos h]
  · rw [if_neg h, if_neg h]

/-- C8: a missing or unreadable input file terminates the process before the
output file is touched, as the claim says; but the claim also asserts that a
readable input yielding zero URLs reaches the final summary normally, while
the source divides the success count by the URL count in the summary line
and so raises an uncaught `ZeroDivisionError` on an empty URL list. -/
theorem spec_exit_behavior (prior : CsvFile) (fetch : String → Option String)
    (jsonParse : String → Option Dict) (complete : String → Option String)
    (pageLastMod : String → String) :
    runMain prior none fetch jsonParse complete pageLastMod =
      RunOutcome.earlyExit prior ∧
    runMain prior (some []) fetch jsonParse complete pageLastMod =
      RunOutcome.zeroDivCrash { header := fieldnames, rows := [] } ∧
    (∀ (u : String) (urls : List String), ∃ file failed,
      runMain prior (some (u :: urls)) fetch jsonParse complete pageLastMod =
        RunOutcome.completed file failed) := by
  refine ⟨rfl, rfl, ?_⟩
  intro u urls
  rw [runMain_some_eq]
  rw [if_neg (by simp)]
  exact ⟨_, _, rfl⟩

/-- C10: the header write at startup replaces whatever file was at the
output path by the bare 17-column header, before any URL is processed; and a
run in which every URL fails (here: every fetch fails) leaves the output
file holding exactly the header and no data rows, whether the run then
completes or dies on the empty-list summary division. -/
theorem spec_header_truncation (prior : CsvFile) (fetch : String → Option String)
    (jsonParse : String → Option Dict) (complete : String → Option String)
    (pageLastMod : String → String) (urls : List String)
    (hfail : ∀ u ∈ urls, fetch u = none) :
    write_csv_header prior = { header := fieldnames, rows := [] } ∧
    fieldnames.length = 17 ∧
    mainLoop fetch jsonParse complete pageLastMod urls =
      { rows := [], successful := 0, failed_urls := urls } ∧
    runMain prior (some urls) fetch jsonParse complete pageLastMod =
      (if urls.length = 0 then
        RunOutcome.zeroDivCrash { header := fieldnames, rows := [] }
      else
        RunOutcome.completed { header := fieldnames, rows := [] } urls) := by
  have hloop : mainLoop fetch jsonParse complete pageLastMod urls =
      { rows := [], successful := 0, failed_urls := urls } := by
    unfold mainLoop
    rw [mainLoop_all_fail fetch jsonParse complete pageLastMod urls _ hfail]
    simp
  refine ⟨rfl, rfl, hloop, ?_⟩
  rw [runMain_some_eq, hloop]

/-! ## `load_urls` lemmas and claims -/

theorem dropWhile_space_all_bom {d : List Char}
    (h : ∀ c ∈ d, c = '\uFEFF') : d.dropWhile isPySpace = d := by
  cases d with
  | nil => rfl
  | cons x xs =>
    have hx : x = '\uFEFF' := h x (List.mem_cons_self x xs)
    rw [List.dropWhile_cons, hx]
    simp [isPySpace]

theorem pyStrip_all_bom {s : String} (h : ∀ c ∈ s.data, c = '\uFEFF') :
    pyStrip s = s := by
  unfold pyStrip
  rw [dropWhile_space_all_bom h,
    dropWhile_space_all_bom (fun c hc => h c (List.mem_reverse.mp hc)),
    List.reverse_reverse]

theorem lstripBOM_all_bom {s : String} (h : ∀ c ∈ s.data, c = '\uFEFF') :
    lstripBOM s = "" := by
  unfold lstripBOM
  have hd : s.data.dropWhile (fun c => c = '\uFEFF') = [] := by
    rw [List.dropWhile_eq_nil_iff]
    intro x hx
    simp [h x hx]
  rw [hd]

/-- C9 counterexample: a line consisting of a single byte-order marker is
not blank in the sense of the source (U+FEFF is not Python whitespace), so
it survives the blank-line filter, and stripping the marker then leaves the
empty string as a returned URL — contradicting the claim that no element of
the returned list is the empty string. -/
theorem spec_load_urls_cex :
    load_urls ["\uFEFF", "http://a"] = ["", "http://a"] ∧
    "" ∈ load_urls ["\uFEFF", "http://a"] := by
  refine ⟨rfl, ?_⟩
  rw [show load_urls ["\uFEFF", "http://a"] = ["", "http://a"] from rfl]
  exact List.mem_cons_self _ _

/-- C9 (amended): `load_urls` returns exactly the lines whose
whitespace-stripped form is non-empty, each mapped to that stripped form
with all leading byte-order markers removed, in order; whitespace-only lines
are ignored, but a line consisting only of byte-order markers passes the
blank filter and contributes the empty string. -/
theorem spec_load_urls_amended (lines : List String) :
    (∀ u ∈ load_urls lines, ∃ l, l ∈ lines ∧ (pyStrip l).isEmpty = false ∧
      u = lstripBOM (pyStrip l)) ∧
    (∀ l ∈ lines, (pyStrip l).isEmpty = false →
      lstripBOM (pyStrip l) ∈ load_urls lines) ∧
    (load_urls lines).length =
      (lines.filter (fun l => !(pyStrip l).isEmpty)).length ∧
    (∀ l ∈ lines, l ≠ "" → (∀ c ∈ l.data, c = '\uFEFF') →
      "" ∈ load_urls lines) := by
  refine ⟨?_, ?_, ?_, ?_⟩
  · intro u hu
    unfold load_urls at hu
    obtain ⟨l, hl, hlu⟩ := List.mem_map.mp hu
    obtain ⟨hl1, hl2⟩ := List.mem_filter.mp hl
    exact ⟨l, hl1, by simpa using hl2, hlu.symm⟩
  · intro l hl hne
    unfold load_urls
    exact List.mem_map_of_mem _ (List.mem_filter.mpr ⟨hl, by simp [hne]⟩)
  · unfold load_urls
    rw [List.length_map]
  · intro l hl hne hbom
    have h1 : pyStrip l = l := pyStrip_all_bom hbom
    have h3 : (pyStrip l).isEmpty = false := by
      rw [h1, Bool.eq_false_iff]
      intro ht
      exact hne (l.isEmpty_iff.mp ht)
    have hmem : lstripBOM (pyStrip l) ∈ load_urls lines := by
      unfold load_urls
      exact List.mem_map_of_mem _ (List.mem_filter.mpr ⟨hl, by simp [h3]⟩)
    have h2 : lstripBOM (pyStrip l) = "" := by
      rw [h1]
      exact lstripBOM_all_bom hbom
    rw [h2] at hmem
    exact hmem

/-! ## Witness instances -/

/-- Witness for the amended C3 theorem: a concrete footer containing an ISO
date wins over anything in the body text. -/
theorem spec_last_modified_witness :
    extractLastModified (some "Page footer 2024-01-02 v1") "body text" =
      "2024-01-02" :=
  (spec_last_modified_amended "Page footer 2024-01-02 v1" "body text").1
    ("2024-01-02".data) (by rfl)

/-- Witness for the C6 theorem: a sibling paragraph longer than the parent
text is chosen. -/
theorem spec_edu_section_witness :
    eduSectionContent "abc" [SibNode.elem "p" "long paragraph"] =
      siblingContent [SibNode.elem "p" "long paragraph"] :=
  (spec_edu_section_longer_wins "abc" [SibNode.elem "p" "long paragraph"]).2.2.1
    (by decide)

/-- Witness for the C7 theorem: a completion with no braces, and a braced
span that fails to parse, both yield a failure. -/
theorem spec_reconciler_failure_witness :
    parseLLMResponse (fun _ => none) "no braces here" "u" "" = none ∧
    parseLLMResponse (fun _ => none) "x\x7by\x7dz" "u" "" = none :=
  ⟨(spec_reconciler_failure (fun _ => none) (fun _ => none) (fun _ => none)
      (fun _ => "") "no braces here" "u" "").2.2.1 rfl,
   (spec_reconciler_failure (fun _ => none) (fun _ => none) (fun _ => none)
      (fun _ => "") "x\x7by\x7dz" "u" "").2.2.2.1 "\x7by\x7d" rfl rfl⟩

/-- Witness for the amended C9 theorem: a byte-order-marker-only line in a
concrete file puts the empty string into the returned URL list. -/
theorem spec_load_urls_witness :
    "" ∈ load_urls ["\uFEFF", "http://a"] :=
  (spec_load_urls_amended ["\uFEFF", "http://a"]).2.2.2 "\uFEFF"
    (List.mem_cons_self _ _) (by decide) (by decide)

/-- Witness for the C10 theorem: a run over one URL whose fetch fails, on
top of a non-empty pre-existing file, completes with a header-only output. -/
theorem spec_header_truncation_witness :
    runMain (CsvFile.mk ["old"] [[("k", "v")]]) (some ["http://u"])
      (fun _ => none) (fun _ => none) (fun _ => none) (fun _ => "") =
      RunOutcome.completed (CsvFile.mk fieldnames []) ["http://u"] := by
  have h := (spec_header_truncation (CsvFile.mk ["old"] [[("k", "v")]])
    (fun _ => none) (fun _ => none) (fun _ => none) (fun _ => "")
    ["http://u"] (fun _ _ => rfl)).2.2.2
  simpa using h

end ProviderList
